import Mathlib

/-!
Verification of the claude-code-switch-settings core (`internal/ccs`):
a shallow embedding of the content-addressed backup engine, the secure
storage copy primitive, the settings-name validator and the profile
store, with theorems checking the specified properties against it.

File contents are modelled as `List Nat` (byte values), clocks as `Int`
timestamps, and the filesystem as explicit maps from paths to contents.
-/

namespace CCS

/-! ## SHA-256 (embedding of Go `crypto/sha256` as used by `CalculateHash`) -/

/-- Truncate to a 32-bit word, as Go's `uint32` arithmetic does. -/
def w32 (x : Nat) : Nat := x % 4294967296

/-- 32-bit right rotation. -/
def rotr32 (n x : Nat) : Nat := w32 ((x >>> n) ||| (x <<< (32 - n)))

/-- SHA-256 round constants. -/
def sha256K : List Nat :=
  [1116352408, 1899447441, 3049323471, 3921009573, 961987163, 1508970993,
   2453635748, 2870763221, 3624381080, 310598401, 607225278, 1426881987,
   1925078388, 2162078206, 2614888103, 3248222580, 3835390401, 4022224774,
   264347078, 604807628, 770255983, 1249150122, 1555081692, 1996064986,
   2554220882, 2821834349, 2952996808, 3210313671, 3336571891, 3584528711,
   113926993, 338241895, 666307205, 773529912, 1294757372, 1396182291,
   1695183700, 1986661051, 2177026350, 2456956037, 2730485921, 2820302411,
   3259730800, 3345764771, 3516065817, 3600352804, 4094571909, 275423344,
   430227734, 506948616, 659060556, 883997877, 958139571, 1322822218,
   1537002063, 1747873779, 1955562222, 2024104815, 2227730452, 2361852424,
   2428436474, 2756734187, 3204031479, 3329325298]

/-- The eight 32-bit working variables of the SHA-256 compression function. -/
structure Hash8 where
  a : Nat
  b : Nat
  c : Nat
  d : Nat
  e : Nat
  f : Nat
  g : Nat
  h : Nat
deriving DecidableEq, Repr

/-- SHA-256 initial hash value. -/
def sha256H0 : Hash8 :=
  ⟨1779033703, 3144134277, 1013904242, 2773480762, 1359893119, 2600822924, 528734635, 1541459225⟩

/-- Big-endian bytes of a 64-bit value (message-length field of the padding). -/
def be64 (x : Nat) : List Nat :=
  [(x >>> 56) % 256, (x >>> 48) % 256, (x >>> 40) % 256, (x >>> 32) % 256,
   (x >>> 24) % 256, (x >>> 16) % 256, (x >>> 8) % 256, x % 256]

/-- SHA-256 padding: append 0x80, zeros to 56 mod 64, then the bit length. -/
def sha256Pad (msg : List Nat) : List Nat :=
  let L := msg.length
  let k := (119 - L % 64) % 64
  msg ++ [0x80] ++ List.replicate k 0 ++ be64 (8 * L)

/-- The i-th big-endian 32-bit word of a byte block. -/
def beWord (block : List Nat) (i : Nat) : Nat :=
  (block.getD (4 * i) 0) <<< 24 ||| (block.getD (4 * i + 1) 0) <<< 16 |||
  (block.getD (4 * i + 2) 0) <<< 8 ||| block.getD (4 * i + 3) 0

/-- Next word of the message schedule, extending `ws`. -/
def schedNext (ws : List Nat) : Nat :=
  let n := ws.length
  let w15 := ws.getD (n - 15) 0
  let w2 := ws.getD (n - 2) 0
  let s0 := (rotr32 7 w15) ^^^ (rotr32 18 w15) ^^^ (w15 >>> 3)
  let s1 := (rotr32 17 w2) ^^^ (rotr32 19 w2) ^^^ (w2 >>> 10)
  w32 (ws.getD (n - 16) 0 + s0 + ws.getD (n - 7) 0 + s1)

/-- Extend the 16 block words to the 64 schedule words. -/
def sha256Sched : List Nat → Nat → List Nat
  | ws, 0 => ws
  | ws, n + 1 => sha256Sched (ws ++ [schedNext ws]) n

/-- One round of the SHA-256 compression function. -/
def sha256Round (st : Hash8) (kw : Nat × Nat) : Hash8 :=
  let S1 := (rotr32 6 st.e) ^^^ (rotr32 11 st.e) ^^^ (rotr32 25 st.e)
  let ch := (st.e &&& st.f) ^^^ ((st.e ^^^ 0xffffffff) &&& st.g)
  let temp1 := w32 (st.h + S1 + ch + kw.1 + kw.2)
  let S0 := (rotr32 2 st.a) ^^^ (rotr32 13 st.a) ^^^ (rotr32 22 st.a)
  let maj := (st.a &&& st.b) ^^^ (st.a &&& st.c) ^^^ (st.b &&& st.c)
  let temp2 := w32 (S0 + maj)
  ⟨w32 (temp1 + temp2), st.a, st.b, st.c, w32 (st.d + temp1), st.e, st.f, st.g⟩

/-- Process one 64-byte block, updating the hash state. -/
def sha256Block (st : Hash8) (block : List Nat) : Hash8 :=
  let ws := sha256Sched ((List.range 16).map (beWord block)) 48
  let r := (sha256K.zip ws).foldl sha256Round st
  ⟨w32 (st.a + r.a), w32 (st.b + r.b), w32 (st.c + r.c), w32 (st.d + r.d),
   w32 (st.e + r.e), w32 (st.f + r.f), w32 (st.g + r.g), w32 (st.h + r.h)⟩

/-- Split a byte list into 64-byte blocks and fold the compression over them. -/
def sha256Blocks (st : Hash8) (bytes : List Nat) : Hash8 :=
  if bytes.length = 0 then st
  else sha256Blocks (sha256Block st (bytes.take 64)) (bytes.drop 64)
termination_by bytes.length
decreasing_by
  simp only [List.length_drop]
  omega

/-- The SHA-256 digest state of a message. -/
def sha256Digest (msg : List Nat) : Hash8 :=
  sha256Blocks sha256H0 (sha256Pad msg)

/-- Lower-case hex digit for a nibble. -/
def hexDigit (n : Nat) : Char :=
  if n < 10 then Char.ofNat (48 + n) else Char.ofNat (87 + n)

/-- The low `n` nibbles of `w`, most significant first. -/
def hexNibbles (w : Nat) : Nat → List Char
  | 0 => []
  | n + 1 => hexDigit ((w >>> (4 * n)) % 16) :: hexNibbles w n

/-- Eight-hex-character rendering of a 32-bit word. -/
def toHex8 (w : Nat) : String := ⟨hexNibbles w 8⟩

/-- Hex SHA-256 digest of a byte string, as `hex.EncodeToString(h.Sum(nil))`
produces it in the Go source. -/
def sha256Hex (msg : List Nat) : String :=
  let d := sha256Digest msg
  toHex8 d.a ++ toHex8 d.b ++ toHex8 d.c ++ toHex8 d.d ++
  toHex8 d.e ++ toHex8 d.f ++ toHex8 d.g ++ toHex8 d.h

/-! ## Go string helpers: `strings.TrimSpace` and friends -/

/-- Go's `unicode.IsSpace`: the White_Space code points. -/
def goIsSpace (c : Char) : Bool :=
  c.toNat = 0x09 ∨ c.toNat = 0x0a ∨ c.toNat = 0x0b ∨ c.toNat = 0x0c ∨ c.toNat = 0x0d ∨
  c.toNat = 0x20 ∨ c.toNat = 0x85 ∨ c.toNat = 0xa0 ∨ c.toNat = 0x1680 ∨
  (0x2000 ≤ c.toNat ∧ c.toNat ≤ 0x200a) ∨ c.toNat = 0x2028 ∨ c.toNat = 0x2029 ∨
  c.toNat = 0x202f ∨ c.toNat = 0x205f ∨ c.toNat = 0x3000

/-- Drop trailing characters satisfying `p`. -/
def dropTrail (p : Char → Bool) (l : List Char) : List Char :=
  (l.reverse.dropWhile p).reverse

/-- Go's `strings.TrimSpace` on a character list. -/
def trimChars (l : List Char) : List Char :=
  dropTrail goIsSpace (l.dropWhile goIsSpace)

/-- Go's `strings.TrimSpace`. -/
def goTrimSpace (s : String) : String := ⟨trimChars s.data⟩

/-! ## Validator (embedding of `internal/ccs/validator/validator.go`) -/

/-- The distinguishable validation errors, one per exported error variable
(`domain.ErrSettingsName…`). -/
inductive NameError where
  | emptyName
  | dotNavigation
  | nullByte
  | nonPrintable
  | invalidChars
  | reservedName
deriving DecidableEq, Repr

/-- The rune loop of `ValidateName`: first rune outside printable ASCII
(or equal to 0x7f, a dead check kept from the source) trips the check. -/
def hasNonPrintable : List Char → Bool
  | [] => false
  | c :: rest =>
    if c.toNat < 0x20 ∨ c.toNat > 0x7e then true
    else if c.toNat = 0x7f then true
    else hasNonPrintable rest

/-- The `invalidCharsPattern` regex: any of the nine special characters. -/
def hasInvalidChar (l : List Char) : Bool :=
  l.any fun c =>
    c = '<' ∨ c = '>' ∨ c = ':' ∨ c = '\"' ∨ c = '/' ∨ c = '\\' ∨
    c = '|' ∨ c = '?' ∨ c = '*'

/-- ASCII lower-casing of one character, the case folding the reserved-name
regex `(?i)` performs on the pattern's ASCII letters. -/
def asciiLower (c : Char) : Char :=
  if 'A' ≤ c ∧ c ≤ 'Z' then Char.ofNat (c.toNat + 32) else c

/-- The `reservedNamePattern` regex: case-insensitive full match of
con, prn, aux, nul, com1-9 or lpt1-9. -/
def isReservedName (l : List Char) : Bool :=
  let low := l.map asciiLower
  low == ['c', 'o', 'n'] || low == ['p', 'r', 'n'] || low == ['a', 'u', 'x'] ||
  low == ['n', 'u', 'l'] ||
  (low.length == 4 &&
    (low.take 3 == ['c', 'o', 'm'] || low.take 3 == ['l', 'p', 't']) &&
    (decide ('1' ≤ low.getD 3 ' ') && decide (low.getD 3 ' ' ≤ '9')))

/-- `Validator.ValidateName`: `none` means valid, `some e` the first failing
rule's error.  Mirrors the source's order: trim, empty, dot navigation,
null byte, printable-ASCII loop, invalid characters, reserved names. -/
def validateName (name : String) : Option NameError :=
  let trimmed := trimChars name.data
  if trimmed.length = 0 then some .emptyName
  else if trimmed = ['.'] ∨ trimmed = ['.', '.'] then some .dotNavigation
  else if trimmed.contains (Char.ofNat 0) then some .nullByte
  else if hasNonPrintable trimmed then some .nonPrintable
  else if hasInvalidChar trimmed then some .invalidChars
  else if isReservedName trimmed then some .reservedName
  else none

/-- `Validator.NormalizeName`: trim, validate the trimmed name, return it. -/
def normalizeName (name : String) : Except NameError String :=
  let trimmed := goTrimSpace name
  match validateName trimmed with
  | some e => .error e
  | none => .ok trimmed

/-- The reserved device names CON, PRN, AUX, NUL, COM1-COM9, LPT1-LPT9,
lower-cased for the case-insensitive comparison. -/
def reservedLower : List (List Char) :=
  [['c', 'o', 'n'], ['p', 'r', 'n'], ['a', 'u', 'x'], ['n', 'u', 'l'],
   ['c', 'o', 'm', '1'], ['c', 'o', 'm', '2'], ['c', 'o', 'm', '3'],
   ['c', 'o', 'm', '4'], ['c', 'o', 'm', '5'], ['c', 'o', 'm', '6'],
   ['c', 'o', 'm', '7'], ['c', 'o', 'm', '8'], ['c', 'o', 'm', '9'],
   ['l', 'p', 't', '1'], ['l', 'p', 't', '2'], ['l', 'p', 't', '3'],
   ['l', 'p', 't', '4'], ['l', 'p', 't', '5'], ['l', 'p', 't', '6'],
   ['l', 'p', 't', '7'], ['l', 'p', 't', '8'], ['l', 'p', 't', '9']]

/-- Modelled from the claim's rule table: trim surrounding whitespace,
then in order — empty, dot navigation, null byte, character outside
printable ASCII 0x20-0x7E, one of the nine invalid characters,
case-insensitive reserved device name — returning the first matching
rule's error, else valid. -/
def validateNameSpec (name : String) : Option NameError :=
  let t := trimChars name.data
  if t = [] then some .emptyName
  else if t = ['.'] ∨ t = ['.', '.'] then some .dotNavigation
  else if Char.ofNat 0 ∈ t then some .nullByte
  else if ∃ c ∈ t, ¬(0x20 ≤ c.toNat ∧ c.toNat ≤ 0x7e) then some .nonPrintable
  else if ∃ c ∈ t, c ∈ ['<', '>', ':', '\"', '/', '\\', '|', '?', '*'] then some .invalidChars
  else if t.map asciiLower ∈ reservedLower then some .reservedName
  else none

/-! ## Fingerprint (embedding of `CalculateHash`)

`CalculateHash` stats the path (missing file → `("", nil)`), maps a
zero-size file to the sentinel `"empty"`, and otherwise streams the
content through SHA-256.  A file is modelled by `Option (List Nat)`:
`none` when the path does not exist. -/

/-- `CalculateHash` as a function of the file found at the path. -/
def calculateHash : Option (List Nat) → String
  | none => ""
  | some [] => "empty"
  | some bytes => sha256Hex bytes

/-- The backup filename derived from a file's content:
`<hash>.json` (`empty.json` for the zero-byte sentinel). -/
def backupName (content : List Nat) : String :=
  calculateHash (some content) ++ ".json"

/-! ## Backup engine (embedding of `BackupFile` / `backupFile`)

The backup directory is a map from filename to `(content, mtime)`.  The
run also returns the list of filesystem write operations it performed, so
that statements about *how* the bytes reached the disk (direct write
versus temp-file-and-rename) can be made, and a fault selector modelling
an I/O failure of `io.Copy` or of `Close` on the destination file. -/

/-- Write operations a backup run can perform on the backup directory. -/
inductive BEvent where
  /-- `OpenFile(path, O_CREATE|O_WRONLY|O_TRUNC)` directly at the destination. -/
  | openDirect (path : String)
  /-- `Rename(src, dst)` (never emitted by `backupFile`; present so that the
  absence of a rename step is expressible). -/
  | renameFile (src dst : String)
  /-- `Chtimes(path, t, t)`. -/
  | chtimes (path : String) (t : Int)
  /-- `Remove(path)`. -/
  | removeFile (path : String)
deriving DecidableEq, Repr

/-- Injected fault for a backup run: succeed, fail in `io.Copy` after
writing a prefix of `written` bytes, or fail when closing the destination. -/
inductive BFault where
  | ok
  | copyFail (written : Nat)
  | closeFail
deriving DecidableEq, Repr

/-- The backup directory: filename to `(content, mtime)`. -/
def BackupDir := String → Option (List Nat × Int)

/-- Point update of a backup directory. -/
def BackupDir.set (d : BackupDir) (p : String) (v : Option (List Nat × Int)) : BackupDir :=
  fun q => if q = p then v else d q

/-- `backupFile(path)` at clock value `t`, on the file `file` found at the
path, over backup directory `d`.  Returns success flag, the directory
afterwards, and the write operations performed, following the source:
hash; missing file is a silent no-op; an existing backup entry gets only
`Chtimes`; otherwise the content is written directly to the destination
name (create, copy, close — removing the partial file if copy or close
fails) and its timestamp set to now. -/
def backupFile (fault : BFault) (t : Int) (file : Option (List Nat)) (d : BackupDir) :
    Bool × BackupDir × List BEvent :=
  match file with
  | none => (true, d, [])
  | some content =>
    let bp := backupName content
    match d bp with
    | some (c, _) =>
      (true, d.set bp (some (c, t)), [BEvent.chtimes bp t])
    | none =>
      match fault with
      | .ok =>
        (true, (d.set bp (some (content, t))),
         [BEvent.openDirect bp, BEvent.chtimes bp t])
      | .copyFail k =>
        (false, (d.set bp (some (content.take k, t))).set bp none,
         [BEvent.openDirect bp, BEvent.removeFile bp])
      | .closeFail =>
        (false, (d.set bp (some (content, t))).set bp none,
         [BEvent.openDirect bp, BEvent.removeFile bp])

/-! ## Secure storage (embedding of `Storage.CopyFile` / `Manager.copyFile`) -/

/-- A flat filesystem: path to content. -/
def Files := String → Option (List Nat)

/-- Point update of a filesystem. -/
def Files.set (fs : Files) (p : String) (v : Option (List Nat)) : Files :=
  fun q => if q = p then v else fs q

/-- Injected fault for a copy run: succeed, fail in `io.Copy` after a
prefix of `written` bytes, fail closing the temp file, or fail renaming. -/
inductive CFault where
  | ok
  | copyFail (written : Nat)
  | closeFail
  | renameFail
deriving DecidableEq, Repr

/-- `CopyFile(src, dst)`: open source (missing → `NotFound`, nothing
created), create `dst + ".tmp"` truncated, copy the data, close, rename
onto `dst`; each failure after the temp file exists removes it before
returning.  Returns the success flag and the filesystem afterwards. -/
def copyFile (fault : CFault) (fs : Files) (src dst : String) : Bool × Files :=
  match fs src with
  | none => (false, fs)
  | some content =>
    let tmp := dst ++ ".tmp"
    let afterCreate := fs.set tmp (some [])
    match fault with
    | .copyFail k =>
      (false, (afterCreate.set tmp (some (content.take k))).set tmp none)
    | .closeFail =>
      (false, (afterCreate.set tmp (some content)).set tmp none)
    | .renameFail =>
      (false, (afterCreate.set tmp (some content)).set tmp none)
    | .ok =>
      (true, ((afterCreate.set tmp (some content)).set tmp none).set dst (some content))

/-! ## Profile store and orchestrator state (embedding of `Manager`) -/

/-- The manager-visible state: the live `settings.json`, the raw content
of the `settings.json.active` pointer file, the profile store
(`switch-settings/<name>.json`, keyed by profile name) and the backup
directory. -/
structure MState where
  live : Option (List Nat)
  activeState : Option String
  store : String → Option (List Nat)
  backups : BackupDir

/-- `GetActiveSettingsName`: read the pointer file (missing → `""`) and
trim whitespace. -/
def getActiveSettingsName (st : MState) : String :=
  match st.activeState with
  | none => ""
  | some c => goTrimSpace c

/-- `SetActiveSettings(name)`: write `name` to the pointer file. -/
def setActiveSettings (name : String) (st : MState) : MState :=
  { st with activeState := some name }

/-- `Save`'s distinguishable failures. -/
inductive SaveError where
  | nothingToSave
  | invalidName (e : NameError)
deriving DecidableEq, Repr

/-- `Save(targetName)` at clock `t` on the success path of the file
operations: require the live file to exist, normalize and validate the
name, back up the existing stored profile of that name, copy the live
file onto the store path, persist the normalized name as active. -/
def save (t : Int) (targetName : String) (st : MState) : Option SaveError × MState :=
  match st.live with
  | none => (some .nothingToSave, st)
  | some content =>
    match normalizeName targetName with
    | .error e => (some (.invalidName e), st)
    | .ok normalized =>
      let d := (backupFile .ok t (st.store normalized) st.backups).2.1
      let st1 := { st with backups := d }
      let st2 := { st1 with store := fun n => if n = normalized then some content else st.store n }
      (none, setActiveSettings normalized st2)

/-! ## List entries (embedding of `settings.Service.ListEntries`) -/

/-- One row of the `list` output, as the source's `ListEntry` struct. -/
structure ListEntry where
  Name : String
  Prefix : String
  Qualifiers : List String
  Plain : Bool
deriving DecidableEq, Repr

/-- The loop body of `ListEntries`: accumulated entries plus the
`activeHandled` flag. -/
def listStep (activeName currentHash : String) (storedHash : String → String)
    (acc : List ListEntry × Bool) (n : String) : List ListEntry × Bool :=
  if n = activeName then
    let sh := storedHash n
    let quals :=
      if currentHash ≠ "" ∧ sh ≠ "" ∧ currentHash ≠ sh then ["active", "modified"]
      else ["active"]
    (acc.1 ++ [⟨n, "*", quals, false⟩], true)
  else
    (acc.1 ++ [⟨n, " ", [], false⟩], acc.2)

/-- `ListEntries`, as a function of the active pointer, the live-file
fingerprint, the sorted stored names and the stored-file fingerprints. -/
def listEntries (activeName currentHash : String) (names : List String)
    (storedHash : String → String) : List ListEntry :=
  let r := names.foldl (listStep activeName currentHash storedHash) ([], false)
  if activeName ≠ "" ∧ ¬r.2 then
    r.1 ++ [⟨activeName, "!", ["active", "missing!"], false⟩]
  else if activeName = "" ∧ currentHash ≠ "" then
    r.1 ++ [⟨"(Current settings.json is unsaved)", "*", [], true⟩]
  else
    r.1

/-- The per-name entry both the claim and the code agree on: inactive for
names other than the pointer; for the pointer's name, active, with
modified added exactly when both fingerprints are non-empty and differ. -/
def claimEntry (activeName currentHash : String) (storedHash : String → String)
    (n : String) : ListEntry :=
  if n = activeName then
    ⟨n, "*",
     if currentHash ≠ "" ∧ storedHash n ≠ "" ∧ currentHash ≠ storedHash n
     then ["active", "modified"] else ["active"], false⟩
  else
    ⟨n, " ", [], false⟩

/-- Modelled from the claim's words: entries for each stored name, then
one synthetic active+missing entry when the non-empty pointer names no
stored profile, or one synthetic unsaved entry when the pointer is empty
but the live file *exists with non-empty content* (fingerprint neither
`""` nor the zero-byte sentinel `"empty"`), and no synthetic entry in any
other case. -/
def listEntriesClaim (activeName currentHash : String) (names : List String)
    (storedHash : String → String) : List ListEntry :=
  names.map (claimEntry activeName currentHash storedHash) ++
  (if activeName ≠ "" ∧ activeName ∉ names then
    [⟨activeName, "!", ["active", "missing!"], false⟩]
  else if activeName = "" ∧ currentHash ≠ "" ∧ currentHash ≠ "empty" then
    [⟨"(Current settings.json is unsaved)", "*", [], true⟩]
  else
    [])

/-- The amended reading: the synthetic unsaved entry appears whenever the
pointer is empty and the live file exists — its fingerprint is non-empty,
the zero-byte sentinel `"empty"` included. -/
def listEntriesAmended (activeName currentHash : String) (names : List String)
    (storedHash : String → String) : List ListEntry :=
  names.map (claimEntry activeName currentHash storedHash) ++
  (if activeName ≠ "" ∧ activeName ∉ names then
    [⟨activeName, "!", ["active", "missing!"], false⟩]
  else if activeName = "" ∧ currentHash ≠ "" then
    [⟨"(Current settings.json is unsaved)", "*", [], true⟩]
  else
    [])

/-! ## Prune (embedding of `PruneBackups`) -/

/-- A backup-directory listing entry as `ReadDir` yields it. -/
structure DirEntry where
  name : String
  isDir : Bool
  mtime : Int
deriving DecidableEq, Repr

/-- `PruneBackups(olderThan)` at clock `now` over the directory listing:
cutoff is `now - olderThan`; subdirectories are skipped; a non-directory
entry with `mtime` strictly before the cutoff is deleted and counted.
Returns the count deleted and the entries remaining. -/
def pruneBackups (now olderThan : Int) (entries : List DirEntry) : Nat × List DirEntry :=
  let cutoff := now - olderThan
  entries.foldl
    (fun acc e =>
      if e.isDir then (acc.1, acc.2 ++ [e])
      else if e.mtime < cutoff then (acc.1 + 1, acc.2)
      else (acc.1, acc.2 ++ [e]))
    (0, [])

/-! ## Helper lemmas -/

theorem hexNibbles_length (w n : Nat) : (hexNibbles w n).length = n := by
  induction n with
  | zero => rfl
  | succ k ih => simp [hexNibbles, ih]

theorem toHex8_length (w : Nat) : (toHex8 w).length = 8 :=
  hexNibbles_length w 8

theorem sha256Hex_length (msg : List Nat) : (sha256Hex msg).length = 64 := by
  simp [sha256Hex, String.length_append, toHex8_length]

/-- The sentinel `"empty"` differs from every hex SHA-256 digest: the
digest has 64 characters, the sentinel 5. -/
theorem sha256Hex_ne_empty_marker (msg : List Nat) : sha256Hex msg ≠ "empty" := by
  intro h
  have h64 := sha256Hex_length msg
  rw [h] at h64
  exact absurd h64 (by decide)

theorem dropTrail_eq_rdropWhile (p : Char → Bool) (l : List Char) :
    dropTrail p l = l.rdropWhile p := rfl

theorem dropWhile_trimChars (l : List Char) :
    (trimChars l).dropWhile goIsSpace = trimChars l := by
  rw [List.dropWhile_eq_self_iff]
  intro hl
  have hpref : trimChars l <+: l.dropWhile goIsSpace :=
    List.rdropWhile_prefix goIsSpace (l.dropWhile goIsSpace)
  have hlen : 0 < (l.dropWhile goIsSpace).length :=
    Nat.lt_of_lt_of_le hl hpref.length_le
  have hget := List.dropWhile_get_zero_not goIsSpace l hlen
  have heq : (trimChars l).get ⟨0, hl⟩ = (l.dropWhile goIsSpace).get ⟨0, hlen⟩ := by
    simpa [List.get_eq_getElem] using hpref.getElem hl
  rw [heq]
  exact hget

theorem trimChars_idem (l : List Char) : trimChars (trimChars l) = trimChars l := by
  conv_lhs => rw [trimChars]
  rw [dropWhile_trimChars, dropTrail_eq_rdropWhile, trimChars, dropTrail_eq_rdropWhile,
    List.rdropWhile_idempotent]

theorem goTrimSpace_idem (s : String) : goTrimSpace (goTrimSpace s) = goTrimSpace s := by
  show (⟨trimChars (trimChars s.data)⟩ : String) = ⟨trimChars s.data⟩
  rw [trimChars_idem]

theorem string_ne_append_tmp (s : String) : s ≠ s ++ ".tmp" := by
  intro h
  have hl := congrArg String.length h
  rw [String.length_append] at hl
  have h4 : (".tmp" : String).length = 4 := rfl
  omega

theorem digitChar_iff (d : Char) :
    ('1' ≤ d ∧ d ≤ '9') ↔
      (d = '1' ∨ d = '2' ∨ d = '3' ∨ d = '4' ∨ d = '5' ∨ d = '6' ∨ d = '7' ∨ d = '8' ∨ d = '9') := by
  constructor
  · rintro ⟨h1, h2⟩
    have h1' : 49 ≤ d.toNat := h1
    have h2' : d.toNat ≤ 57 := h2
    have hd := Char.ofNat_toNat d
    have hc : d.toNat = 49 ∨ d.toNat = 50 ∨ d.toNat = 51 ∨ d.toNat = 52 ∨ d.toNat = 53 ∨
        d.toNat = 54 ∨ d.toNat = 55 ∨ d.toNat = 56 ∨ d.toNat = 57 := by omega
    rcases hc with h | h | h | h | h | h | h | h | h <;> rw [h] at hd <;> rw [← hd] <;> simp
  · rintro (rfl | rfl | rfl | rfl | rfl | rfl | rfl | rfl | rfl) <;> exact ⟨by decide, by decide⟩

theorem hasNonPrintable_iff (l : List Char) :
    hasNonPrintable l = true ↔ ∃ c ∈ l, ¬(0x20 ≤ c.toNat ∧ c.toNat ≤ 0x7e) := by
  induction l with
  | nil => simp [hasNonPrintable]
  | cons a t ih =>
    rw [hasNonPrintable]
    by_cases h : a.toNat < 0x20 ∨ a.toNat > 0x7e
    · rw [if_pos h]
      simp only [List.mem_cons, true_iff]
      exact ⟨a, Or.inl rfl, by omega⟩
    · rw [if_neg h, if_neg (by omega), ih]
      simp only [List.mem_cons]
      constructor
      · rintro ⟨c, hc, hp⟩
        exact ⟨c, Or.inr hc, hp⟩
      · rintro ⟨c, rfl | hc, hp⟩
        · exact absurd (by omega) hp
        · exact ⟨c, hc, hp⟩

theorem hasInvalidChar_iff (l : List Char) :
    hasInvalidChar l = true ↔
      ∃ c ∈ l, c ∈ ['<', '>', ':', '\"', '/', '\\', '|', '?', '*'] := by
  simp [hasInvalidChar, List.any_eq_true]

theorem isReservedName_iff (l : List Char) :
    isReservedName l = true ↔ l.map asciiLower ∈ reservedLower := by
  rw [isReservedName]
  generalize l.map asciiLower = low
  simp only [Bool.or_eq_true, Bool.and_eq_true, beq_iff_eq, decide_eq_true_eq]
  constructor
  · intro h
    rcases low with _ | ⟨a, _ | ⟨b, _ | ⟨c, _ | ⟨d, _ | ⟨e, r⟩⟩⟩⟩⟩
    · rcases h with (((h | h) | h) | h) | h <;>
        first | (rw [h]; decide) | (exfalso; simp at h)
    · rcases h with (((h | h) | h) | h) | h <;>
        first | (rw [h]; decide) | (exfalso; simp at h)
    · rcases h with (((h | h) | h) | h) | h <;>
        first | (rw [h]; decide) | (exfalso; simp at h)
    · rcases h with (((h | h) | h) | h) | h <;>
        first | (rw [h]; decide) | (exfalso; simp at h)
    · rcases h with (((h | h) | h) | h) | h
      · rw [h]; decide
      · rw [h]; decide
      · rw [h]; decide
      · rw [h]; decide
      · obtain ⟨⟨-, hstem⟩, hd1, hd2⟩ := h
        rw [show ([a, b, c, d] : List Char).getD 3 ' ' = d from rfl] at hd1 hd2
        rw [show ([a, b, c, d] : List Char).take 3 = [a, b, c] from rfl] at hstem
        rcases hstem with hstem | hstem <;>
          simp only [List.cons.injEq, and_true] at hstem <;>
          obtain ⟨rfl, rfl, rfl⟩ := hstem <;>
          rcases (digitChar_iff d).mp ⟨hd1, hd2⟩ with
            rfl | rfl | rfl | rfl | rfl | rfl | rfl | rfl | rfl <;> decide
    · rcases h with (((h | h) | h) | h) | h <;>
        first
          | (rw [h]; decide)
          | (obtain ⟨hlen, -⟩ := h; simp only [List.length_cons] at hlen; omega)
  · intro h
    simp only [reservedLower, List.mem_cons, List.not_mem_nil, or_false] at h
    rcases h with rfl | rfl | rfl | rfl | rfl | rfl | rfl | rfl | rfl | rfl | rfl |
      rfl | rfl | rfl | rfl | rfl | rfl | rfl | rfl | rfl | rfl | rfl <;> decide

theorem listStep_foldl (activeName currentHash : String) (storedHash : String → String)
    (names : List String) (acc : List ListEntry) (b : Bool) :
    names.foldl (listStep activeName currentHash storedHash) (acc, b) =
      (acc ++ names.map (claimEntry activeName currentHash storedHash),
        b || names.contains activeName) := by
  induction names generalizing acc b with
  | nil => simp
  | cons n rest ih =>
    rw [List.foldl_cons, List.map_cons]
    by_cases h : n = activeName
    · have hstep : listStep activeName currentHash storedHash (acc, b) n =
          (acc ++ [claimEntry activeName currentHash storedHash n], true) := by
        simp only [listStep, claimEntry, if_pos h]
      rw [hstep, ih]
      have hcont : (n :: rest).contains activeName = true := by
        simp [h]
      rw [hcont]
      simp [List.append_assoc]
    · have hstep : listStep activeName currentHash storedHash (acc, b) n =
          (acc ++ [claimEntry activeName currentHash storedHash n], b) := by
        simp only [listStep, claimEntry, if_neg h]
      rw [hstep, ih]
      have hcont : (n :: rest).contains activeName = rest.contains activeName := by
        simp [List.elem_cons]
        intro hc
        exact absurd hc.symm h
      rw [hcont]
      simp [List.append_assoc]

/-! ## C3: the fingerprint function -/

/-- C3: `CalculateHash` returns `""` with no error when the path does not
exist, the sentinel `"empty"` (distinct from every hex SHA-256 digest)
for an existing zero-byte file, and otherwise the hex SHA-256 digest of
the file's exact bytes, so identical bytes always produce identical
fingerprints. -/
theorem calculateHash_spec (file : Option (List Nat)) :
    (file = none → calculateHash file = "") ∧
    (file = some [] → calculateHash file = "empty") ∧
    (∀ bytes, bytes ≠ [] → file = some bytes → calculateHash file = sha256Hex bytes) ∧
    (∀ bytes : List Nat, sha256Hex bytes ≠ "empty") ∧
    (∀ other : Option (List Nat), other = file → calculateHash other = calculateHash file) := by
  refine ⟨?_, ?_, ?_, sha256Hex_ne_empty_marker, ?_⟩
  · rintro rfl; rfl
  · rintro rfl; rfl
  · rintro bytes hb rfl
    cases bytes with
    | nil => exact absurd rfl hb
    | cons b bs => rfl
  · rintro other rfl; rfl

/-- Witness for C3 at a concrete one-byte file. -/
theorem calculateHash_spec_witness :
    calculateHash (some [7]) = sha256Hex [7] :=
  (calculateHash_spec (some [7])).2.2.1 [7] (by decide) rfl

/-! ## C4: the validator rule table -/

theorem validateName_eq_spec_fn (s : String) : validateName s = validateNameSpec s := by
  rw [validateName, validateNameSpec]
  by_cases h1 : trimChars s.data = []
  · rw [if_pos (by simpa using h1), if_pos h1]
  · rw [if_neg (by simpa using h1), if_neg h1]
    by_cases h2 : trimChars s.data = ['.'] ∨ trimChars s.data = ['.', '.']
    · rw [if_pos h2, if_pos h2]
    · rw [if_neg h2, if_neg h2]
      by_cases h3 : Char.ofNat 0 ∈ trimChars s.data
      · rw [if_pos (by simpa using h3), if_pos h3]
      · rw [if_neg (by simpa using h3), if_neg h3]
        by_cases h4 : ∃ c ∈ trimChars s.data, ¬(0x20 ≤ c.toNat ∧ c.toNat ≤ 0x7e)
        · rw [if_pos (by rw [hasNonPrintable_iff]; exact h4), if_pos h4]
        · rw [if_neg (by rw [hasNonPrintable_iff]; exact h4), if_neg h4]
          by_cases h5 : ∃ c ∈ trimChars s.data,
              c ∈ ['<', '>', ':', '\"', '/', '\\', '|', '?', '*']
          · rw [if_pos (by rw [hasInvalidChar_iff]; exact h5), if_pos h5]
          · rw [if_neg (by rw [hasInvalidChar_iff]; exact h5), if_neg h5]
            by_cases h6 : (trimChars s.data).map asciiLower ∈ reservedLower
            · rw [if_pos (by rw [isReservedName_iff]; exact h6), if_pos h6]
            · rw [if_neg (by rw [isReservedName_iff]; exact h6), if_neg h6]

/-- C4: name validation trims surrounding whitespace and applies the six
rules in the claimed order, first match giving the error; a valid name
makes `NormalizeName` return the trimmed string. -/
theorem validator_rule_table (s : String) :
    validateName s = validateNameSpec s ∧
      (validateName s = none → normalizeName s = .ok (goTrimSpace s)) := by
  refine ⟨validateName_eq_spec_fn s, fun h => ?_⟩
  have htrim : validateName (goTrimSpace s) = validateName s := by
    rw [validateName, validateName]
    have : trimChars (goTrimSpace s).data = trimChars s.data := trimChars_idem s.data
    rw [this]
  simp only [normalizeName]
  rw [htrim, h]

/-- Witness for C4: a valid name passes both the source validator and the
claim's rule table, and normalizes to its trimmed form. -/
theorem validator_rule_table_witness :
    validateName " work " = validateNameSpec " work " ∧
      normalizeName " work " = .ok "work" := by
  refine ⟨(validator_rule_table " work ").1, ?_⟩
  have h := (validator_rule_table " work ").2 (by decide)
  have h2 : goTrimSpace " work " = "work" := by decide
  rw [h2] at h
  exact h

/-! ## C9: setting then reading the active pointer -/

/-- C9: for every name without surrounding whitespace, the empty string
included, `SetActiveSettings(name)` followed by `GetActiveSettingsName()`
returns exactly `name`. -/
theorem setActive_then_getActive (st : MState) (name : String)
    (h : goTrimSpace name = name) :
    getActiveSettingsName (setActiveSettings name st) = name := by
  simp [getActiveSettingsName, setActiveSettings, h]

/-- Witness for C9: clearing the pointer with the empty string reads back
as the empty string. -/
theorem setActive_then_getActive_witness :
    getActiveSettingsName
      (setActiveSettings "" ⟨none, some "old", fun _ => none, fun _ => none⟩) = "" :=
  setActive_then_getActive ⟨none, some "old", fun _ => none, fun _ => none⟩ "" (by decide)

/-! ## C5: list entries -/

/-- C5 counterexample: with an empty active pointer and a zero-byte live
file (fingerprint `"empty"`), the code emits a synthetic unsaved entry
while the claim says no synthetic entry appears. -/
theorem listEntries_unsaved_counterexample :
    listEntries "" "empty" [] (fun _ => "") ≠ listEntriesClaim "" "empty" [] (fun _ => "") := by
  decide

/-- C5 amended: ListEntries is exactly the claimed deterministic function
of the pointer, the names, and the fingerprints, with the unsaved
condition read as "the live file exists" (non-empty fingerprint, the
zero-byte sentinel included) rather than "exists with non-empty
content". -/
theorem listEntries_eq_amended (activeName currentHash : String) (names : List String)
    (storedHash : String → String) :
    listEntries activeName currentHash names storedHash =
      listEntriesAmended activeName currentHash names storedHash := by
  rw [listEntries, listEntriesAmended, listStep_foldl]
  by_cases hmem : activeName ∈ names <;> by_cases hact : activeName = "" <;>
    by_cases hch : currentHash = "" <;>
    simp [hmem, hact, hch, List.elem_iff]

/-! ## C7: pruning old backups -/

theorem prune_foldl (cutoff : Int) (entries : List DirEntry) (c : Nat) (kept : List DirEntry) :
    entries.foldl
        (fun acc e =>
          if e.isDir then (acc.1, acc.2 ++ [e])
          else if e.mtime < cutoff then (acc.1 + 1, acc.2)
          else (acc.1, acc.2 ++ [e]))
        (c, kept) =
      (c + (entries.filter fun e => !e.isDir && decide (e.mtime < cutoff)).length,
       kept ++ entries.filter fun e => e.isDir || decide (cutoff ≤ e.mtime)) := by
  induction entries generalizing c kept with
  | nil => simp
  | cons e rest ih =>
    rw [List.foldl_cons]
    by_cases hd : e.isDir
    · rw [if_pos hd, ih]
      simp [hd, List.filter_cons, List.append_assoc]
    · by_cases hm : e.mtime < cutoff
      · rw [if_neg hd, if_pos hm, ih]
        have : ¬(cutoff ≤ e.mtime) := by omega
        simp [hd, hm, this, List.filter_cons]
        omega
      · rw [if_neg hd, if_neg hm, ih]
        have : cutoff ≤ e.mtime := by omega
        simp [hd, hm, this, List.filter_cons, List.append_assoc]

/-- C7: PruneBackups computes cutoff = now - olderThan, deletes exactly
the non-directory entries with modification time strictly before the
cutoff (skipping subdirectories), returns the count deleted and retains
every other entry; in particular with entries at T-48h and T-1h and
olderThan = 24h at T, exactly the T-48h entry goes. -/
theorem pruneBackups_spec (now olderThan : Int) (entries : List DirEntry) :
    pruneBackups now olderThan entries =
      ((entries.filter fun e => !e.isDir && decide (e.mtime < now - olderThan)).length,
       entries.filter fun e => e.isDir || decide (now - olderThan ≤ e.mtime)) ∧
    pruneBackups 0 24 [⟨"T-48h", false, -48⟩, ⟨"T-1h", false, -1⟩] =
      (1, [⟨"T-1h", false, -1⟩]) := by
  constructor
  · rw [pruneBackups, prune_foldl]
    simp
  · decide

/-! ## C2: copy-file failure cleanup -/

/-- C2: if CopyFile fails after the temporary file `dst + ".tmp"` has
been created — in the data copy, the close of the temp file, or the final
rename — the temporary file is removed before the error returns and `dst`
still holds exactly its prior content (or is still absent). -/
theorem copyFile_cleanup (fault : CFault) (fs : Files) (src dst : String)
    (content : List Nat) (hsrc : fs src = some content) (hfault : fault ≠ .ok) :
    (copyFile fault fs src dst).1 = false ∧
    (copyFile fault fs src dst).2 (dst ++ ".tmp") = none ∧
    (copyFile fault fs src dst).2 dst = fs dst := by
  have hdst : ¬(dst = dst ++ ".tmp") := string_ne_append_tmp dst
  cases fault with
  | ok => exact absurd rfl hfault
  | copyFail k =>
    refine ⟨?_, ?_, ?_⟩
    · simp only [copyFile, hsrc]
    · simp only [copyFile, hsrc]
      simp [Files.set]
    · simp only [copyFile, hsrc]
      simp [Files.set, hdst]
  | closeFail =>
    refine ⟨?_, ?_, ?_⟩
    · simp only [copyFile, hsrc]
    · simp only [copyFile, hsrc]
      simp [Files.set]
    · simp only [copyFile, hsrc]
      simp [Files.set, hdst]
  | renameFail =>
    refine ⟨?_, ?_, ?_⟩
    · simp only [copyFile, hsrc]
    · simp only [copyFile, hsrc]
      simp [Files.set]
    · simp only [copyFile, hsrc]
      simp [Files.set, hdst]

/-- Witness for C2 at a concrete filesystem and a close failure. -/
theorem copyFile_cleanup_witness :
    (copyFile .closeFail (fun p => if p = "s" then some [1, 2] else none) "s" "d").1 = false ∧
    (copyFile .closeFail (fun p => if p = "s" then some [1, 2] else none) "s" "d").2
      ("d" ++ ".tmp") = none ∧
    (copyFile .closeFail (fun p => if p = "s" then some [1, 2] else none) "s" "d").2 "d" =
      (fun p => if p = "s" then some [1, 2] else none) "d" :=
  copyFile_cleanup .closeFail (fun p => if p = "s" then some [1, 2] else none) "s" "d"
    [1, 2] (by decide) (by decide)

/-! ## C1: backup deduplication -/

/-- C1: on a fresh fingerprint, the first BackupFile call creates the
single file `<fingerprint>.json` with the source bytes and the current
time; a second call on bitwise-identical content performs only a
timestamp update to its (later) clock value — no write events, no byte
rewrite, no second entry — and no other path in the backup directory is
ever touched. -/
theorem backup_dedup (t1 t2 : Int) (content : List Nat) (d0 : BackupDir)
    (hnew : d0 (backupName content) = none) (hle : t1 ≤ t2) :
    (backupFile .ok t1 (some content) d0).1 = true ∧
    (backupFile .ok t1 (some content) d0).2.1 (backupName content) = some (content, t1) ∧
    (backupFile .ok t2 (some content) (backupFile .ok t1 (some content) d0).2.1).1 = true ∧
    (backupFile .ok t2 (some content) (backupFile .ok t1 (some content) d0).2.1).2.1
      (backupName content) = some (content, t2) ∧
    t1 ≤ t2 ∧
    (backupFile .ok t2 (some content) (backupFile .ok t1 (some content) d0).2.1).2.2 =
      [BEvent.chtimes (backupName content) t2] ∧
    (∀ p, p ≠ backupName content →
      (backupFile .ok t2 (some content) (backupFile .ok t1 (some content) d0).2.1).2.1 p =
        d0 p) ∧
    (∀ (d : BackupDir) (c : List Nat) (tPrev t3 : Int),
      d (backupName content) = some (c, tPrev) →
      backupFile .ok t3 (some content) d =
        (true, BackupDir.set d (backupName content) (some (c, t3)),
         [BEvent.chtimes (backupName content) t3])) := by
  have h1 : backupFile .ok t1 (some content) d0 =
      (true, BackupDir.set d0 (backupName content) (some (content, t1)),
       [BEvent.openDirect (backupName content), BEvent.chtimes (backupName content) t1]) := by
    simp only [backupFile, hnew]
  have hbp : BackupDir.set d0 (backupName content) (some (content, t1)) (backupName content) =
      some (content, t1) := by
    simp [BackupDir.set]
  have h2 : backupFile .ok t2 (some content)
        (BackupDir.set d0 (backupName content) (some (content, t1))) =
      (true,
       BackupDir.set (BackupDir.set d0 (backupName content) (some (content, t1)))
         (backupName content) (some (content, t2)),
       [BEvent.chtimes (backupName content) t2]) := by
    simp only [backupFile, hbp]
  rw [h1]
  refine ⟨rfl, hbp, ?_⟩
  rw [h2]
  refine ⟨rfl, by simp [BackupDir.set], hle, rfl, ?_, ?_⟩
  · intro p hp
    simp [BackupDir.set, hp]
  · intro d c tPrev t3 hd
    simp only [backupFile, hd]

/-- Witness for C1 at a concrete one-byte content and clocks 0 and 1. -/
theorem backup_dedup_witness :
    (backupFile .ok 1 (some [1]) (backupFile .ok 0 (some [1]) (fun _ => none)).2.1).2.1
      (backupName [1]) = some ([1], 1) :=
  (backup_dedup 0 1 [1] (fun _ => none) rfl (by decide)).2.2.2.1

/-! ## C8: how a new backup reaches the disk -/

/-- C8 counterexample: at a fresh fingerprint the run that creates a new
backup performs a direct open-and-write of the destination name and no
rename — the claim that the bytes arrive via a temporary file followed by
a rename rather than a direct write is false. -/
theorem backup_atomic_write_counterexample :
    ¬((∃ tmp, BEvent.renameFile tmp (backupName [1]) ∈
        (backupFile .ok 0 (some [1]) (fun _ => none)).2.2) ∧
      BEvent.openDirect (backupName [1]) ∉
        (backupFile .ok 0 (some [1]) (fun _ => none)).2.2) := by
  rintro ⟨⟨tmp, hmem⟩, -⟩
  have hev : (backupFile .ok 0 (some [1]) (fun _ => none)).2.2 =
      [BEvent.openDirect (backupName [1]), BEvent.chtimes (backupName [1]) 0] := rfl
  rw [hev] at hmem
  simp at hmem

/-- C8 amended: when no file with the derived name exists yet, BackupFile
writes the source content directly to that destination name (OpenFile
with create/truncate, copy, close) — not via a temporary file and a
rename — and then sets the backup file's timestamp to the current time. -/
theorem backup_new_write_direct (t : Int) (content : List Nat) (d0 : BackupDir)
    (hnew : d0 (backupName content) = none) :
    (backupFile .ok t (some content) d0).1 = true ∧
    (backupFile .ok t (some content) d0).2.1 (backupName content) = some (content, t) ∧
    (backupFile .ok t (some content) d0).2.2 =
      [BEvent.openDirect (backupName content), BEvent.chtimes (backupName content) t] ∧
    (∀ s d, BEvent.renameFile s d ∉ (backupFile .ok t (some content) d0).2.2) := by
  have h1 : backupFile .ok t (some content) d0 =
      (true, BackupDir.set d0 (backupName content) (some (content, t)),
       [BEvent.openDirect (backupName content), BEvent.chtimes (backupName content) t]) := by
    simp only [backupFile, hnew]
  rw [h1]
  refine ⟨rfl, by simp [BackupDir.set], rfl, ?_⟩
  intro s d
  simp

/-- Witness for C8's amended claim at a concrete input. -/
theorem backup_new_write_direct_witness :
    (backupFile .ok 0 (some [2]) (fun _ => none)).2.2 =
      [BEvent.openDirect (backupName [2]), BEvent.chtimes (backupName [2]) 0] :=
  (backup_new_write_direct 0 [2] (fun _ => none) rfl).2.2.1

/-! ## C10: failed new-backup write leaves nothing behind -/

/-- C10: if the data copy or the close fails while BackupFile is writing
a newly created backup file, the partial file is removed before the error
returns, so the backup directory is exactly as before — no entry with
content differing from the source remains. -/
theorem backup_failure_cleanup (t : Int) (content : List Nat) (d0 : BackupDir)
    (fault : BFault) (hnew : d0 (backupName content) = none) (hfault : fault ≠ .ok) :
    (backupFile fault t (some content) d0).1 = false ∧
    (backupFile fault t (some content) d0).2.1 = d0 ∧
    (backupFile fault t (some content) d0).2.2 =
      [BEvent.openDirect (backupName content), BEvent.removeFile (backupName content)] := by
  cases fault with
  | ok => exact absurd rfl hfault
  | copyFail k =>
    refine ⟨?_, ?_, ?_⟩
    · simp only [backupFile, hnew]
    · simp only [backupFile, hnew]
      funext q
      by_cases hq : q = backupName content
      · subst hq
        simp [BackupDir.set, hnew]
      · simp [BackupDir.set, hq]
    · simp only [backupFile, hnew]
  | closeFail =>
    refine ⟨?_, ?_, ?_⟩
    · simp only [backupFile, hnew]
    · simp only [backupFile, hnew]
      funext q
      by_cases hq : q = backupName content
      · subst hq
        simp [BackupDir.set, hnew]
      · simp [BackupDir.set, hq]
    · simp only [backupFile, hnew]

/-- Witness for C10 at a concrete copy failure after one byte. -/
theorem backup_failure_cleanup_witness :
    (backupFile (.copyFail 1) 0 (some [3]) (fun _ => none)).1 = false ∧
    (backupFile (.copyFail 1) 0 (some [3]) (fun _ => none)).2.1 = (fun _ => none) :=
  ⟨(backup_failure_cleanup 0 [3] (fun _ => none) (.copyFail 1) rfl (by decide)).1,
   (backup_failure_cleanup 0 [3] (fun _ => none) (.copyFail 1) rfl (by decide)).2.1⟩

/-! ## C6: Save -/

theorem normalizeName_ok_eq {s n : String} (h : normalizeName s = .ok n) :
    n = goTrimSpace s := by
  rw [normalizeName] at h
  cases hv : validateName (goTrimSpace s) with
  | some e => rw [hv] at h; exact Except.noConfusion h
  | none => rw [hv] at h; cases h; rfl

/-- C6: Save requires the live file to exist, failing with
nothing-to-save and no state change when absent; fails on an invalid name
with no state change; otherwise backs up the existing stored profile of
that name if one exists, copies the live content onto the store path for
the normalized name, and persists that name as the active pointer. -/
theorem save_spec (t : Int) (targetName : String) (st : MState) :
    (st.live = none → save t targetName st = (some .nothingToSave, st)) ∧
    (∀ content e, st.live = some content → normalizeName targetName = .error e →
      save t targetName st = (some (.invalidName e), st)) ∧
    (∀ content n, st.live = some content → normalizeName targetName = .ok n →
      (save t targetName st).1 = none ∧
      (save t targetName st).2.store n = some content ∧
      getActiveSettingsName (save t targetName st).2 = n ∧
      (st.store n = none → (save t targetName st).2.backups = st.backups) ∧
      (∀ old, st.store n = some old →
        ∃ c, (save t targetName st).2.backups (backupName old) = some (c, t) ∧
          (st.backups (backupName old) = none → c = old))) := by
  refine ⟨?_, ?_, ?_⟩
  · intro hl
    simp only [save, hl]
  · intro content e hl he
    simp only [save, hl, he]
  · intro content n hl hn
    have hsave : save t targetName st =
        (none, setActiveSettings n
          { st with
              backups := (backupFile .ok t (st.store n) st.backups).2.1,
              store := fun m => if m = n then some content else st.store m }) := by
      simp only [save, hl, hn]
    rw [hsave]
    refine ⟨rfl, by simp [setActiveSettings], ?_, ?_, ?_⟩
    · have hgn : goTrimSpace n = n := by
        rw [normalizeName_ok_eq hn, goTrimSpace_idem]
      simp [getActiveSettingsName, setActiveSettings, hgn]
    · intro hnone
      simp only [setActiveSettings]
      rw [hnone]
      rfl
    · intro old hold
      simp only [setActiveSettings]
      rw [hold]
      cases hb : st.backups (backupName old) with
      | some entry =>
        refine ⟨entry.1, ?_, fun hc => Option.noConfusion hc⟩
        simp only [backupFile, hb]
        simp [BackupDir.set]
      | none =>
        refine ⟨old, ?_, fun _ => rfl⟩
        simp only [backupFile, hb]
        simp [BackupDir.set]

/-- Witness for C6 on a concrete state with a live file and a fresh
profile name. -/
theorem save_spec_witness :
    (save 0 "work" ⟨some [1], none, fun _ => none, fun _ => none⟩).1 = none ∧
    (save 0 "work" ⟨some [1], none, fun _ => none, fun _ => none⟩).2.store "work" = some [1] ∧
    getActiveSettingsName (save 0 "work" ⟨some [1], none, fun _ => none, fun _ => none⟩).2 =
      "work" := by
  have h := (save_spec 0 "work" ⟨some [1], none, fun _ => none, fun _ => none⟩).2.2
    [1] "work" rfl rfl
  exact ⟨h.1, h.2.1, h.2.2.1⟩

end CCS
